import Mathlib

set_option maxRecDepth 100000

/-!
Shallow embedding of the two dynamic-inventory scripts
`plugins/inventory/nova.py` (OpenStack) and `plugins/inventory/rax.py`
(Rackspace).  Both scripts fetch a server list once and render either a
grouped discovery document (`--list`) or a single-host attribute dump
(`--host <query>`).  The two files share `get_addresses` verbatim and
differ only in the provider key tag (`os` vs `rax`) and in when the
comma-joined legacy address list is appended to the candidate list.

Python dictionaries are modelled at two levels.  An association list
records the key-to-value association and the order in which keys were
first created (insertion order).  The order in which the scripts'
CPython 2 interpreter *iterates* a dict — the key order `json.dumps`
emits, since these are Python 2 scripts (`itervalues`, `ConfigParser`)
and Python 2 dicts are open-addressing hash tables iterated in slot
order — is modelled separately by `py2DictKeyOrder`, built from CPython
2's string hash and probe sequence.  A run that would raise an uncaught
exception (the `StopIteration` from `itervalues().next()` on an empty
`addresses` mapping) is modelled as `none`.
-/

/-- An address entry of a server network: the literal address `addr`, the
optional provider type extension (models the Python dict key
`OS-EXT-IPS:type`) and the optional IP `version` field.  An absent dict
key is `none`. -/
structure AddressEntry where
  addr : String
  ipType : Option String
  version : Option Int
  deriving DecidableEq

/-- A representative universe for the raw attribute values attached to a
server record; detail mode passes these values through unchanged, so
their inner structure never matters to the logic. -/
inductive PyVal where
  | str : String → PyVal
  | int : Int → PyVal
  | strList : List String → PyVal
  deriving DecidableEq

/-- A server record as fetched from the cloud API.  `addresses` is the
network-name to entry-list mapping; `attrs` models `vars(instance)`, the
full attribute dictionary that detail mode enumerates. -/
structure Server where
  name : String
  accessIPv4 : String
  metadata : List (String × String)
  addresses : List (String × List AddressEntry)
  attrs : List (String × PyVal)
  deriving DecidableEq

/-- `get_addresses`, shared verbatim by nova.py and rax.py: entries typed
`fixed` are private, entries typed `floating` are public, and entries
with `version == 4` are legacy regardless of type tag. -/
def get_addresses (addr : List AddressEntry) : List String × List String × List String :=
  ((addr.filter (fun x => x.ipType == some "fixed")).map (fun x => x.addr),
   (addr.filter (fun x => x.ipType == some "floating")).map (fun x => x.addr),
   (addr.filter (fun x => x.version == some 4)).map (fun x => x.addr))

/-- Models `getattr(instance, 'addresses').itervalues().next()`: the
first enumerated network's address list.  `none` models the uncaught
`StopIteration` raised when the mapping is empty. -/
def firstNetwork (s : Server) : Option (List AddressEntry) :=
  s.addresses.head?.map Prod.snd

/-- The candidate-address list built in nova.py (identical in its
`--list` and `--host` branches): the comma-joined legacy list is always
the fourth element. -/
def novaIps (accessIPv4 : String) (entries : List AddressEntry) : List String :=
  let r := get_addresses entries
  [accessIPv4, String.intercalate ", " r.1, String.intercalate ", " r.2.1,
   String.intercalate ", " r.2.2]

/-- The candidate-address list built in rax.py (identical in its `--list`
and `--host` branches): the comma-joined legacy list is appended only
when `accessIPv4` is empty (Python falsy). -/
def raxIps (accessIPv4 : String) (entries : List AddressEntry) : List String :=
  let r := get_addresses entries
  let ips := [accessIPv4, String.intercalate ", " r.1, String.intercalate ", " r.2.1]
  if accessIPv4 = "" then ips ++ [String.intercalate ", " r.2.2] else ips

/-- The shape of the candidate-list builder each variant plugs into the
shared renderer logic: it reads the server's `accessIPv4` and the first
network's entries. -/
abbrev IpsFun := String → List AddressEntry → List String

/-- First-match lookup in an association list (Python dict read). -/
def alookup {β : Type} (k : String) : List (String × β) → Option β
  | [] => none
  | p :: t => if p.1 = k then some p.2 else alookup k t

/-- `instance.metadata.get('group', 'undefined')`. -/
def serverGroup (s : Server) : String :=
  (alookup "group" s.metadata).getD "undefined"

/-- `if group not in groups: groups[group] = []` — create the group's
(empty) entry on first reference.  Appending at the end records the
key-creation (insertion) order and the key-to-value association; it does
not model the dict's iteration order, which `py2DictKeyOrder` does. -/
def ensureGroup (gs : List (String × List String)) (g : String) : List (String × List String) :=
  if (alookup g gs).isSome then gs else gs ++ [(g, [])]

/-- `groups[group].append(v)` — append to the list stored at key `g`. -/
def appendToGroup (gs : List (String × List String)) (g v : String) :
    List (String × List String) :=
  gs.map (fun p => if p.1 = g then (p.1, p.2 ++ [v]) else p)

/-- One iteration of the `--list` loop body for one server: classify the
first network's addresses, pick the group, create it if absent, then
append `'name: addr'` for every truthy (non-empty) candidate. -/
def listStep (ipsOf : IpsFun) (gs : List (String × List String)) (s : Server) :
    Option (List (String × List String)) := do
  let entries ← firstNetwork s
  let ips := ipsOf s.accessIPv4 entries
  let g := serverGroup s
  let gs1 := ensureGroup gs g
  return ips.foldl (fun acc a => if a ≠ "" then appendToGroup acc g (s.name ++ ": " ++ a) else acc) gs1

/-- The `--list` branch: fold the loop body over the fetched servers,
starting from the empty `groups` dict. -/
def listGroups (ipsOf : IpsFun) (servers : List Server) :
    Option (List (String × List String)) :=
  servers.foldlM (listStep ipsOf) []

/-- Python string containment `needle in hay` (contiguous substring).
This is the test the scripts' `key not in 'manager'` filter performs. -/
def strIn (needle hay : String) : Bool :=
  decide (needle.data <:+: hay.data)

/-- Python `key.lower()` on an attribute name, modelled character-wise. -/
def pyLower (s : String) : String :=
  ⟨s.data.map Char.toLower⟩

/-- The attribute key/value pairs the `--host` branch derives from a
selected record: every entry of `vars(instance)` whose key is not a
substring of the string `'manager'`, re-keyed as
`<tag>_<key lower-cased>` with the value passed through unchanged. -/
def hostVars (tag : String) (s : Server) : List (String × PyVal) :=
  (s.attrs.filter (fun kv => !(strIn kv.1 "manager"))).map
    (fun kv => (tag ++ "_" ++ pyLower kv.1, kv.2))

/-- Python dict assignment `d[k] = v`: overwrite in place when the key is
present, append otherwise. -/
def dictInsert {β : Type} (d : List (String × β)) (k : String) (v : β) :
    List (String × β) :=
  if (alookup k d).isSome then d.map (fun p => if p.1 = k then (k, v) else p)
  else d ++ [(k, v)]

/-- Write all of a record's derived attribute pairs into the shared
`results` dict, in order. -/
def insertVars (res : List (String × PyVal)) (kvs : List (String × PyVal)) :
    List (String × PyVal) :=
  kvs.foldl (fun acc kv => dictInsert acc kv.1 kv.2) res

/-- One iteration of the `--host` loop body for one server: build the
candidate list and, when the query is a member, write the record's
attribute pairs into the shared `results` dict (no break: every matching
record is processed). -/
def hostStep (tag : String) (ipsOf : IpsFun) (query : String)
    (res : List (String × PyVal)) (s : Server) : Option (List (String × PyVal)) := do
  let entries ← firstNetwork s
  let ips := ipsOf s.accessIPv4 entries
  if query ∈ ips then
    return insertVars res (hostVars tag s)
  else
    return res

/-- The `--host` branch: fold the loop body over the fetched servers,
starting from the empty `results` dict. -/
def describeHost (tag : String) (ipsOf : IpsFun) (servers : List Server)
    (query : String) : Option (List (String × PyVal)) :=
  servers.foldlM (hostStep tag ipsOf query) []

/-- What a run writes to standard output: the discovery document, the
host-detail document, or the usage line. -/
inductive Output where
  | groupsDoc : List (String × List String) → Output
  | hostDoc : List (String × PyVal) → Output
  | usageLine : String → Output
  deriving DecidableEq

/-- The literal usage message both scripts print. -/
def usageText : String := "usage: --list  ..OR.. --host <hostname>"

/-- The scripts' CLI dispatch over the full `sys.argv` (program name
included): `--list` alone, `--host` with exactly one argument, or the
usage line with exit status 1.  The pair's second component is the exit
status. -/
def cliRun (tag : String) (ipsOf : IpsFun) (servers : List Server)
    (argv : List String) : Option (Output × Nat) :=
  if argv.length = 2 ∧ argv.getD 1 "" = "--list" then
    (listGroups ipsOf servers).map (fun gs => (Output.groupsDoc gs, 0))
  else if argv.length = 3 ∧ argv.getD 1 "" = "--host" then
    (describeHost tag ipsOf servers (argv.getD 2 "")).map (fun d => (Output.hostDoc d, 0))
  else
    some (Output.usageLine usageText, 1)

/-- The `'name: addr'` strings one server contributes in discovery mode:
its non-empty candidates, in candidate order. -/
def contribOf (ipsOf : IpsFun) (s : Server) : List String :=
  match firstNetwork s with
  | none => []
  | some entries =>
      ((ipsOf s.accessIPv4 entries).filter (fun a => a != "")).map
        (fun a => s.name ++ ": " ++ a)

/-- Keeps the first occurrence of each element, in order of first
appearance. -/
def firstOccur (l : List String) : List String :=
  l.foldl (fun acc g => if g ∈ acc then acc else acc ++ [g]) []

/-- Whether the `--host` membership test selects this server. -/
def matchesQuery (ipsOf : IpsFun) (query : String) (s : Server) : Bool :=
  match firstNetwork s with
  | none => false
  | some entries => decide (query ∈ ipsOf s.accessIPv4 entries)

/-- Bitwise XOR of the low `fuel` bits of two naturals, written as a
structural recursion so that it evaluates in the kernel. -/
def natXor : Nat → Nat → Nat → Nat
  | 0, _, _ => 0
  | fuel + 1, a, b => ((a + b) % 2) + 2 * natXor fuel (a / 2) (b / 2)

/-- CPython 2's string hash (stringobject.c, 64-bit build, default
non-randomized hashing): x starts at the first byte shifted left 7 bits,
every byte folds in as x = (1000003 x) xor byte, and x is finally xored
with the length; all arithmetic is on the 64-bit two's-complement bit
pattern, computed here modulo 2^64 (characters are assumed ASCII, as
group names here are Python 2 byte strings).  The empty string hashes to
0 and the reserved value -1 becomes -2. -/
def py2StrHash (s : String) : Nat :=
  match s.data with
  | [] => 0
  | c :: _ =>
      let x0 := (c.toNat * 2 ^ 7) % 2 ^ 64
      let x1 := s.data.foldl (fun x ch => natXor 64 ((1000003 * x) % 2 ^ 64) ch.toNat) x0
      let x2 := natXor 64 x1 s.length
      if x2 = 2 ^ 64 - 1 then 2 ^ 64 - 2 else x2

/-- CPython 2's open-addressing probe (dictobject.c) over the initial
8-slot table: stop at an empty slot or at the probed key, otherwise
i becomes 5 i + perturb + 1 (64-bit) with the slot taken modulo 8, and
perturb shifts down 5 bits each step.  The fuel only bounds the
recursion; a table with a free slot resolves long before 64 probes. -/
def py2FindSlot (slots : List (Option String)) (k : String) :
    Nat → Nat → Nat → Nat
  | 0, _, _ => 0
  | fuel + 1, i, perturb =>
      match slots.getD (i % 8) none with
      | none => i % 8
      | some k' =>
          if k' = k then i % 8
          else py2FindSlot slots k fuel ((5 * i + perturb + 1) % 2 ^ 64) (perturb / 2 ^ 5)

/-- Insert a key into the 8-slot table at the slot the probe sequence
finds; the first probe is the hash modulo 8 and perturb starts at the
full hash. -/
def py2Insert (slots : List (Option String)) (k : String) : List (Option String) :=
  let h := py2StrHash k
  slots.set (py2FindSlot slots k 64 (h % 8) h) (some k)

/-- The key order in which CPython 2 iterates — and `json.dumps`
serializes — a dict holding the given keys, inserted in the given
order: ascending slot order of the hash table.  Faithful for dicts that
stay within the initial 8-slot table (at most five keys, no deletions),
which covers documents with at most five groups. -/
def py2DictKeyOrder (keys : List String) : List String :=
  (keys.foldl py2Insert (List.replicate 8 none)).filterMap id

/-- The discovery document as the script actually emits it: json.dumps
walks the groups dict in CPython 2 hash-slot order, pairing each key
with the value list built for it. -/
def emittedListDoc (ipsOf : IpsFun) (servers : List Server) :
    Option (List (String × List String)) :=
  (listGroups ipsOf servers).map (fun gs =>
    (py2DictKeyOrder (gs.map Prod.fst)).filterMap
      (fun k => (alookup k gs).map (fun v => (k, v))))

/-! ### Association-list lemmas -/

theorem alookup_append {β : Type} (k : String) (l1 l2 : List (String × β)) :
    alookup k (l1 ++ l2) = ((alookup k l1).elim (alookup k l2) some) := by
  induction l1 with
  | nil => simp [alookup]
  | cons p t ih =>
      by_cases h : p.1 = k <;> simp [alookup, h, ih]

theorem alookup_isSome_iff {β : Type} (k : String) (l : List (String × β)) :
    (alookup k l).isSome = true ↔ k ∈ l.map Prod.fst := by
  induction l with
  | nil => simp [alookup]
  | cons p t ih =>
      simp only [alookup, List.map_cons, List.mem_cons]
      by_cases h : p.1 = k
      · simp [h]
      · have h' : ¬ k = p.1 := fun hh => h hh.symm
        simp [h, h', ih]

theorem alookup_appendToGroup (gs : List (String × List String)) (g v k : String) :
    alookup k (appendToGroup gs g v)
      = if k = g then (alookup k gs).map (fun l => l ++ [v]) else alookup k gs := by
  induction gs with
  | nil => simp [appendToGroup, alookup]
  | cons p t ih =>
      simp only [appendToGroup, List.map_cons] at ih ⊢
      by_cases hkg : k = g
      · subst hkg
        by_cases hpk : p.1 = k
        · simp [alookup, hpk]
        · simp [alookup, hpk, ih]
      · by_cases hpk : p.1 = k
        · have hpg : ¬ p.1 = g := fun h => hkg (hpk.symm.trans h)
          simp [alookup, hpk, hpg, hkg]
        · have hgk : ¬ g = k := fun h => hkg h.symm
          by_cases hpg : p.1 = g
          · simp [alookup, hpk, hpg, ih, hkg, hgk]
          · simp [alookup, hpk, hpg, ih, hkg, hgk]

theorem alookup_ensureGroup (gs : List (String × List String)) (g k : String) :
    alookup k (ensureGroup gs g)
      = if k = g then some ((alookup g gs).getD []) else alookup k gs := by
  by_cases hs : (alookup g gs).isSome = true
  · rw [ensureGroup, if_pos hs]
    by_cases hkg : k = g
    · subst hkg
      obtain ⟨v, hv⟩ := Option.isSome_iff_exists.mp hs
      simp [hv]
    · simp [hkg]
  · rw [ensureGroup, if_neg hs]
    rw [alookup_append]
    have hnone : alookup g gs = none := by
      cases h : alookup g gs
      · rfl
      · exact absurd (by simp [h]) hs
    by_cases hkg : k = g
    · subst hkg
      simp [hnone, alookup]
    · have hgk : ¬ g = k := fun h => hkg h.symm
      cases halk : alookup k gs <;> simp [halk, alookup, hkg, hgk]

theorem alookup_foldAppend (g nm : String) (ips : List String) :
    ∀ (gs : List (String × List String)) (k : String),
      alookup k (ips.foldl (fun acc a => if a ≠ "" then appendToGroup acc g (nm ++ ": " ++ a) else acc) gs)
        = if k = g
          then (alookup k gs).map
            (fun l => l ++ (ips.filter (fun a => a != "")).map (fun a => nm ++ ": " ++ a))
          else alookup k gs := by
  induction ips with
  | nil =>
      intro gs k
      by_cases hkg : k = g
      · subst hkg
        cases h : alookup k gs <;> simp [h]
      · simp [hkg]
  | cons a t ih =>
      intro gs k
      simp only [List.foldl_cons]
      by_cases ha : a = ""
      · subst ha
        rw [if_neg (by simp)]
        rw [ih]
        simp
      · rw [if_pos ha]
        rw [ih]
        by_cases hkg : k = g
        · subst hkg
          rw [alookup_appendToGroup]
          rw [if_pos rfl, if_pos rfl, if_pos rfl]
          have hfil : List.filter (fun a => a != "") (a :: t) = a :: List.filter (fun a => a != "") t := by
            simp [List.filter_cons, ha]
          rw [hfil]
          cases halk : alookup k gs <;> simp [halk]
        · rw [alookup_appendToGroup]
          rw [if_neg hkg, if_neg hkg, if_neg hkg]

theorem alookup_listStep (ipsOf : IpsFun) (gs : List (String × List String)) (s : Server)
    (gs1 : List (String × List String)) (h : listStep ipsOf gs s = some gs1) (k : String) :
    alookup k gs1
      = if k = serverGroup s
        then some (((alookup (serverGroup s) gs).getD []) ++ contribOf ipsOf s)
        else alookup k gs := by
  cases hfn : firstNetwork s with
  | none => simp [listStep, hfn] at h
  | some entries =>
      simp only [listStep, hfn, Option.bind_eq_bind, Option.some_bind] at h
      have hgs1 : gs1 = (ipsOf s.accessIPv4 entries).foldl
          (fun acc a => if a ≠ "" then appendToGroup acc (serverGroup s) (s.name ++ ": " ++ a) else acc)
          (ensureGroup gs (serverGroup s)) := by
        cases h
        rfl
      subst hgs1
      rw [alookup_foldAppend, alookup_ensureGroup]
      by_cases hkg : k = serverGroup s
      · subst hkg
        simp [contribOf, hfn]
      · simp [hkg]

theorem alookup_foldListSteps (ipsOf : IpsFun) :
    ∀ (servers : List Server) (gs0 gs : List (String × List String)),
      List.foldlM (listStep ipsOf) gs0 servers = some gs →
      ∀ k : String,
        alookup k gs =
          match alookup k gs0 with
          | some v => some (v ++ ((servers.filter (fun s => serverGroup s == k)).map (contribOf ipsOf)).flatten)
          | none =>
              if servers.any (fun s => serverGroup s == k)
              then some (((servers.filter (fun s => serverGroup s == k)).map (contribOf ipsOf)).flatten)
              else none := by
  intro servers
  induction servers with
  | nil =>
      intro gs0 gs h k
      simp only [List.foldlM_nil] at h
      cases h
      cases halk : alookup k gs0 <;> simp [halk]
  | cons s t ih =>
      intro gs0 gs h k
      rw [List.foldlM_cons] at h
      obtain ⟨gs1, h1, h2⟩ := Option.bind_eq_some.mp h
      have hstep := alookup_listStep ipsOf gs0 s gs1 h1
      have hrest := ih gs1 gs h2 k
      by_cases hg : serverGroup s = k
      · subst hg
        have hk1 : alookup (serverGroup s) gs1
            = some (((alookup (serverGroup s) gs0).getD []) ++ contribOf ipsOf s) := by
          rw [hstep (serverGroup s), if_pos rfl]
        rw [hrest, hk1]
        cases halk : alookup (serverGroup s) gs0 <;>
          simp [halk, List.filter_cons, List.any_cons, List.append_assoc]
      · have hgk : ¬ (serverGroup s) == k := by simp [hg]
        have hk1 : alookup k gs1 = alookup k gs0 := by
          rw [hstep k, if_neg (fun hh => hg hh.symm)]
        rw [hrest, hk1]
        simp only [List.filter_cons, List.any_cons, Bool.not_eq_true] at hgk ⊢
        rw [hgk]
        simp

/-! ### Key-order lemmas -/

theorem keys_appendToGroup (gs : List (String × List String)) (g v : String) :
    (appendToGroup gs g v).map Prod.fst = gs.map Prod.fst := by
  induction gs with
  | nil => rfl
  | cons p t ih =>
      simp only [appendToGroup, List.map_cons] at ih ⊢
      by_cases hpg : p.1 = g <;> simp [hpg, ih]

theorem keys_foldAppend (g nm : String) (ips : List String) :
    ∀ gs : List (String × List String),
      (ips.foldl (fun acc a => if a ≠ "" then appendToGroup acc g (nm ++ ": " ++ a) else acc) gs).map Prod.fst
        = gs.map Prod.fst := by
  induction ips with
  | nil => intro gs; rfl
  | cons a t ih =>
      intro gs
      simp only [List.foldl_cons]
      by_cases ha : a = ""
      · subst ha
        rw [if_neg (by simp)]
        exact ih gs
      · rw [if_pos ha, ih, keys_appendToGroup]

theorem keys_ensureGroup (gs : List (String × List String)) (g : String) :
    (ensureGroup gs g).map Prod.fst
      = if g ∈ gs.map Prod.fst then gs.map Prod.fst else gs.map Prod.fst ++ [g] := by
  by_cases hs : (alookup g gs).isSome = true
  · rw [ensureGroup, if_pos hs, if_pos ((alookup_isSome_iff g gs).mp hs)]
  · have hmem : ¬ g ∈ gs.map Prod.fst := fun hm => hs ((alookup_isSome_iff g gs).mpr hm)
    rw [ensureGroup, if_neg hs, if_neg hmem]
    simp

theorem keys_listStep (ipsOf : IpsFun) (gs : List (String × List String)) (s : Server)
    (gs1 : List (String × List String)) (h : listStep ipsOf gs s = some gs1) :
    gs1.map Prod.fst
      = if serverGroup s ∈ gs.map Prod.fst then gs.map Prod.fst
        else gs.map Prod.fst ++ [serverGroup s] := by
  cases hfn : firstNetwork s with
  | none => simp [listStep, hfn] at h
  | some entries =>
      simp only [listStep, hfn, Option.bind_eq_bind, Option.some_bind] at h
      have hgs1 : gs1 = (ipsOf s.accessIPv4 entries).foldl
          (fun acc a => if a ≠ "" then appendToGroup acc (serverGroup s) (s.name ++ ": " ++ a) else acc)
          (ensureGroup gs (serverGroup s)) := by
        cases h
        rfl
      subst hgs1
      rw [keys_foldAppend, keys_ensureGroup]

theorem keys_foldListSteps (ipsOf : IpsFun) :
    ∀ (servers : List Server) (gs0 gs : List (String × List String)),
      List.foldlM (listStep ipsOf) gs0 servers = some gs →
      gs.map Prod.fst
        = (servers.map serverGroup).foldl
            (fun acc g => if g ∈ acc then acc else acc ++ [g]) (gs0.map Prod.fst) := by
  intro servers
  induction servers with
  | nil =>
      intro gs0 gs h
      simp only [List.foldlM_nil] at h
      cases h
      rfl
  | cons s t ih =>
      intro gs0 gs h
      rw [List.foldlM_cons] at h
      obtain ⟨gs1, h1, h2⟩ := Option.bind_eq_some.mp h
      rw [List.map_cons, List.foldl_cons, ← keys_listStep ipsOf gs0 s gs1 h1]
      exact ih gs1 gs h2

/-! ### Failure propagation and detail-mode characterization -/

theorem foldlM_option_none {α β : Type} (f : β → α → Option β) (x : α)
    (hx : ∀ b, f b x = none) :
    ∀ (l : List α) (a : β), x ∈ l → List.foldlM f a l = none := by
  intro l
  induction l with
  | nil => intro a hm; cases hm
  | cons y t ih =>
      intro a hm
      rw [List.foldlM_cons]
      rcases List.mem_cons.mp hm with hy | ht
      · subst hy
        rw [hx a]
        rfl
      · cases hfy : f a y with
        | none => rfl
        | some a' =>
            exact ih a' ht

theorem firstNetwork_eq_none_iff (s : Server) :
    firstNetwork s = none ↔ s.addresses = [] := by
  cases h : s.addresses <;> simp [firstNetwork, h]

theorem firstNetwork_isSome_of_ne (s : Server) (h : s.addresses ≠ []) :
    ∃ entries, firstNetwork s = some entries := by
  cases hd : s.addresses with
  | nil => exact absurd hd h
  | cons p t => exact ⟨p.2, by simp [firstNetwork, hd]⟩

theorem listStep_eq_none (ipsOf : IpsFun) (s : Server) (hs : s.addresses = []) :
    ∀ gs, listStep ipsOf gs s = none := by
  intro gs
  have hfn : firstNetwork s = none := (firstNetwork_eq_none_iff s).mpr hs
  simp [listStep, hfn]

theorem hostStep_eq_none (tag : String) (ipsOf : IpsFun) (query : String) (s : Server)
    (hs : s.addresses = []) :
    ∀ res, hostStep tag ipsOf query res s = none := by
  intro res
  have hfn : firstNetwork s = none := (firstNetwork_eq_none_iff s).mpr hs
  simp [hostStep, hfn]

theorem foldHostSteps_eq (tag : String) (ipsOf : IpsFun) (query : String) :
    ∀ (servers : List Server) (r0 : List (String × PyVal)),
      (∀ s ∈ servers, s.addresses ≠ []) →
      List.foldlM (hostStep tag ipsOf query) r0 servers
        = some ((servers.filter (matchesQuery ipsOf query)).foldl
            (fun r s => insertVars r (hostVars tag s)) r0) := by
  intro servers
  induction servers with
  | nil => intro r0 _; rfl
  | cons s t ih =>
      intro r0 hne
      obtain ⟨entries, hfn⟩ := firstNetwork_isSome_of_ne s (hne s (List.mem_cons_self s t))
      rw [List.foldlM_cons]
      have hrec := fun r => ih r (fun x hx => hne x (List.mem_cons_of_mem s hx))
      by_cases hq : query ∈ ipsOf s.accessIPv4 entries
      · have hm : matchesQuery ipsOf query s = true := by
          simp [matchesQuery, hfn, hq]
        simp only [hostStep, hfn, Option.bind_eq_bind, Option.some_bind, if_pos hq]
        rw [List.filter_cons, hm]
        simp only [if_pos]
        rw [List.foldl_cons]
        exact hrec (insertVars r0 (hostVars tag s))
      · have hm : matchesQuery ipsOf query s = false := by
          simp [matchesQuery, hfn, hq]
        simp only [hostStep, hfn, Option.bind_eq_bind, Option.some_bind, if_neg hq]
        rw [List.filter_cons, hm]
        simp only [Bool.false_eq_true, if_false]
        exact hrec r0

/-! ### Claim theorems -/

/-- C3: for every sequence of address entries, `get_addresses` returns
(private, public, legacy) where private is exactly the `addr` fields of the
entries whose type tag equals 'fixed', public exactly those typed
'floating', and legacy exactly those whose version equals 4 regardless of
type tag (so a version-4 entry with a type tag appears in legacy as well as
in its typed category); each output is a filter-then-map of the input, so
input order is preserved and nothing is deduplicated, and an entry lacking
the relevant field is simply excluded, never an error. -/
theorem C3_classify (addr : List AddressEntry) (p u l : List String)
    (h : get_addresses addr = (p, u, l)) :
    p = (addr.filter (fun x => x.ipType == some "fixed")).map (fun x => x.addr)
  ∧ u = (addr.filter (fun x => x.ipType == some "floating")).map (fun x => x.addr)
  ∧ l = (addr.filter (fun x => x.version == some 4)).map (fun x => x.addr)
  ∧ (∀ x ∈ addr, x.version = some 4 → x.addr ∈ l) := by
  have h' := h
  simp only [get_addresses, Prod.mk.injEq] at h'
  obtain ⟨h1, h2, h3⟩ := h'
  subst h1
  subst h2
  subst h3
  refine ⟨rfl, rfl, rfl, ?_⟩
  intro x hx hv
  simp only [List.mem_map, List.mem_filter]
  exact ⟨x, ⟨hx, by simp [hv]⟩, rfl⟩

/-- C3 witness: a fixed-typed version-4 entry lands in both private and
legacy at a concrete input. -/
theorem C3_classify_witness :
    get_addresses [⟨"10.0.0.1", some "fixed", some 4⟩, ⟨"8.8.8.8", some "floating", none⟩]
        = (["10.0.0.1"], ["8.8.8.8"], ["10.0.0.1"])
  ∧ "10.0.0.1" ∈ ["10.0.0.1"] :=
  ⟨by decide,
   (C3_classify [⟨"10.0.0.1", some "fixed", some 4⟩, ⟨"8.8.8.8", some "floating", none⟩]
       ["10.0.0.1"] ["8.8.8.8"] ["10.0.0.1"] (by decide)).2.2.2
     ⟨"10.0.0.1", some "fixed", some 4⟩ (by decide) (by decide)⟩

/-- C4: for every server, the candidate list is accessIPv4, then the
comma-joined private, public and legacy lists, with the legacy element
present unconditionally in the nova variant but only when accessIPv4 is
empty in the rax variant; hence the two variants produce the same candidate
list whenever accessIPv4 is empty. -/
theorem C4_candidate_lists (a : String) (entries : List AddressEntry)
    (p u l : List String) (h : get_addresses entries = (p, u, l)) :
    novaIps a entries
        = [a, String.intercalate ", " p, String.intercalate ", " u, String.intercalate ", " l]
  ∧ raxIps a entries
        = ([a, String.intercalate ", " p, String.intercalate ", " u]
            ++ if a = "" then [String.intercalate ", " l] else [])
  ∧ (a = "" → novaIps a entries = raxIps a entries) := by
  refine ⟨by simp [novaIps, h], ?_, ?_⟩
  · by_cases ha : a = "" <;> simp [raxIps, h, ha]
  · intro ha
    subst ha
    simp [novaIps, raxIps, h]

/-- C4 witness: with empty accessIPv4, the nova and rax candidate lists
coincide at a concrete input. -/
theorem C4_candidate_lists_witness :
    novaIps "" [⟨"10.0.0.1", some "fixed", some 4⟩]
      = raxIps "" [⟨"10.0.0.1", some "fixed", some 4⟩] :=
  (C4_candidate_lists "" [⟨"10.0.0.1", some "fixed", some 4⟩]
      ["10.0.0.1"] [] ["10.0.0.1"] (by decide)).2.2 rfl

/-- C10: the detail-mode membership test sees the candidate list with empty
strings retained: the empty-string query selects a server whose accessIPv4
is empty (in both variants) and its attribute dump is emitted, whereas
discovery mode filters the empty candidates out of the same server's
entries. -/
theorem C10_empty_candidates_match :
    ("" ∈ novaIps "" []) ∧ ("" ∈ raxIps "" [])
  ∧ describeHost "os" novaIps [⟨"n", "", [], [("net", [])], [("name", PyVal.str "n")]⟩] ""
      = some [("os_name", PyVal.str "n")]
  ∧ describeHost "rax" raxIps [⟨"n", "", [], [("net", [])], [("name", PyVal.str "n")]⟩] ""
      = some [("rax_name", PyVal.str "n")]
  ∧ listGroups novaIps [⟨"n", "", [], [("net", [])], [("name", PyVal.str "n")]⟩]
      = some [("undefined", [])] := by
  exact ⟨by decide, by decide, by decide, by decide, by decide⟩

/-- C1 counterexample: two fetched servers whose candidate lists both
contain the query '1.2.3.4' (they share one candidate list, whose
membership is shown first); the emitted document carries the second
record's name attribute, since the loop has no break and a later matching
record overwrites the earlier one — the document is not produced only from
the first match. -/
theorem C1_counterexample :
    ("1.2.3.4" ∈ novaIps "1.2.3.4" [])
  ∧ describeHost "os" novaIps
      [⟨"a", "1.2.3.4", [], [("net", [])], [("name", PyVal.str "a")]⟩,
       ⟨"b", "1.2.3.4", [], [("net", [])], [("name", PyVal.str "b")]⟩] "1.2.3.4"
      = some [("os_name", PyVal.str "b")]
  ∧ PyVal.str "b" ≠ PyVal.str "a" := by
  exact ⟨by decide, by decide, by decide⟩

/-- C1 amended: in detail mode the document is built from every matching
record in fetched order, each matching record writing all its derived
attribute pairs into the shared results mapping, so later matching records
overwrite earlier values key by key (last-match-wins), not only the first
match. -/
theorem C1_amended_last_match_wins (tag query : String) (ipsOf : IpsFun)
    (servers : List Server) (hne : ∀ s ∈ servers, s.addresses ≠ []) :
    describeHost tag ipsOf servers query
      = some ((servers.filter (matchesQuery ipsOf query)).foldl
          (fun r s => insertVars r (hostVars tag s)) []) :=
  foldHostSteps_eq tag ipsOf query servers [] hne

/-- C1 amended witness: the fold over both matching records at a concrete
input. -/
theorem C1_amended_witness :
    describeHost "rax" raxIps
      [⟨"a", "5.6.7.8", [], [("net", [])], [("name", PyVal.str "a")]⟩,
       ⟨"b", "5.6.7.8", [], [("net", [])], [("name", PyVal.str "b")]⟩] "5.6.7.8"
      = some (([⟨"a", "5.6.7.8", [], [("net", [])], [("name", PyVal.str "a")]⟩,
                ⟨"b", "5.6.7.8", [], [("net", [])], [("name", PyVal.str "b")]⟩].filter
                  (matchesQuery raxIps "5.6.7.8")).foldl
          (fun r s => insertVars r (hostVars "rax" s)) []) :=
  C1_amended_last_match_wins "rax" "5.6.7.8" raxIps
    [⟨"a", "5.6.7.8", [], [("net", [])], [("name", PyVal.str "a")]⟩,
     ⟨"b", "5.6.7.8", [], [("net", [])], [("name", PyVal.str "b")]⟩] (by decide)

/-- C2: evaluation of the code at the failing input.  The Python filter
`key not in 'manager'` is a substring test, so the attribute named 'man' —
a proper substring of 'manager', not equal to it — is also dropped from
the detail document, while 'Status' survives under the provider-tagged
lower-cased key with its raw value. -/
theorem C2_substring_exclusion :
    strIn "man" "manager" = true
  ∧ "man" ≠ "manager"
  ∧ describeHost "os" novaIps
      [⟨"a", "1.2.3.4", [], [("net", [])],
        [("man", PyVal.str "x"), ("manager", PyVal.int 0), ("Status", PyVal.str "ok")]⟩]
      "1.2.3.4"
      = some [("os_status", PyVal.str "ok")] := by
  exact ⟨by decide, by decide, by decide⟩

/-- C5: in discovery mode every server contributes entries under exactly
one group key — its metadata 'group' value, or 'undefined' when absent:
the value stored at each key of the document is exactly the concatenation,
in fetched order, of the contributions of the servers whose group is that
key, where a server's contribution is one '<name>: <address>' string for
each non-empty candidate in candidate order, duplicates kept; keys no
server's group maps to are absent. -/
theorem C5_discovery_contributions (ipsOf : IpsFun) (servers : List Server)
    (gs : List (String × List String)) (h : listGroups ipsOf servers = some gs)
    (k : String) :
    alookup k gs =
      if servers.any (fun s => serverGroup s == k)
      then some (((servers.filter (fun s => serverGroup s == k)).map (contribOf ipsOf)).flatten)
      else none := by
  have hmain := alookup_foldListSteps ipsOf servers [] gs h k
  simpa [alookup] using hmain

/-- C5 witness: the 'web' group of a concrete three-server run collects the
two web servers' contributions in order, duplicates kept. -/
theorem C5_discovery_contributions_witness :
    alookup "web" [("web", ["w1: 9.9.9.9", "w1: 10.0.0.1", "w1: 10.0.0.1", "w2: 7.7.7.7"]),
                   ("undefined", ["d1: 8.8.8.8"])]
      = some ["w1: 9.9.9.9", "w1: 10.0.0.1", "w1: 10.0.0.1", "w2: 7.7.7.7"] := by
  have h := C5_discovery_contributions novaIps
      [⟨"w1", "9.9.9.9", [("group", "web")], [("net", [⟨"10.0.0.1", some "fixed", some 4⟩])], []⟩,
       ⟨"d1", "8.8.8.8", [], [("net", [])], []⟩,
       ⟨"w2", "7.7.7.7", [("group", "web")], [("net", [])], []⟩]
      [("web", ["w1: 9.9.9.9", "w1: 10.0.0.1", "w1: 10.0.0.1", "w2: 7.7.7.7"]),
       ("undefined", ["d1: 8.8.8.8"])]
      (by decide) "web"
  rw [h]
  decide


/-- C7: in detail mode, when no fetched server's candidate list contains
the query (and every server's addresses mapping is non-empty, so the scan
completes), the run prints the empty document and exits with status 0 —
not an error. -/
theorem C7_no_match_success (tag prog query : String) (ipsOf : IpsFun)
    (servers : List Server)
    (hne : ∀ s ∈ servers, s.addresses ≠ [])
    (hnm : ∀ s ∈ servers, ∀ entries, firstNetwork s = some entries →
             query ∉ ipsOf s.accessIPv4 entries) :
    cliRun tag ipsOf servers [prog, "--host", query] = some (Output.hostDoc [], 0) := by
  have hdh : describeHost tag ipsOf servers query = some [] := by
    rw [describeHost, foldHostSteps_eq tag ipsOf query servers [] hne]
    have hfil : servers.filter (matchesQuery ipsOf query) = [] := by
      rw [List.filter_eq_nil_iff]
      intro s hs
      obtain ⟨entries, hfn⟩ := firstNetwork_isSome_of_ne s (hne s hs)
      simp [matchesQuery, hfn, hnm s hs entries hfn]
    rw [hfil]
    rfl
  rw [cliRun, if_neg (by simp), if_pos (by simp)]
  show (describeHost tag ipsOf servers query).map (fun d => (Output.hostDoc d, 0)) = _
  rw [hdh]
  rfl

/-- C7 witness: a query matching no candidate of the single fetched server
yields the empty document with exit status 0. -/
theorem C7_no_match_success_witness :
    cliRun "os" novaIps [⟨"n", "x", [], [("net", [])], []⟩] ["p", "--host", "q"]
      = some (Output.hostDoc [], 0) :=
  C7_no_match_success "os" "p" "q" novaIps [⟨"n", "x", [], [("net", [])], []⟩]
    (by decide)
    (by
      intro s hs entries hfn
      simp only [List.mem_singleton] at hs
      subst hs
      simp only [firstNetwork, List.head?] at hfn
      cases hfn
      decide)

/-- C8: any command-line shape other than exactly '--list' with no further
argument or '--host' with exactly one argument yields the one-line usage
message on standard output with exit status 1; the two well-formed shapes
exit with status 0 (whenever the run completes), and the usage message
contains no newline. -/
theorem C8_cli_dispatch (tag prog : String) (ipsOf : IpsFun) (servers : List Server)
    (args : List String) :
    (args ≠ ["--list"] → (∀ q : String, args ≠ ["--host", q]) →
        cliRun tag ipsOf servers (prog :: args) = some (Output.usageLine usageText, 1))
  ∧ (∀ r, cliRun tag ipsOf servers (prog :: ["--list"]) = some r → r.2 = 0)
  ∧ (∀ q r, cliRun tag ipsOf servers (prog :: ["--host", q]) = some r → r.2 = 0)
  ∧ usageText.data.contains '\n' = false := by
  refine ⟨?_, ?_, ?_, by decide⟩
  · intro h1 h2
    have hc1 : ¬ ((prog :: args).length = 2 ∧ (prog :: args).getD 1 "" = "--list") := by
      rintro ⟨hl, hg⟩
      simp only [List.length_cons] at hl
      obtain ⟨a, ha⟩ := List.length_eq_one.mp (show args.length = 1 by omega)
      subst ha
      simp only [List.getD_cons_succ, List.getD_cons_zero] at hg
      exact h1 (by rw [hg])
    have hc2 : ¬ ((prog :: args).length = 3 ∧ (prog :: args).getD 1 "" = "--host") := by
      rintro ⟨hl, hg⟩
      simp only [List.length_cons] at hl
      obtain ⟨a, b, hab⟩ := List.length_eq_two.mp (show args.length = 2 by omega)
      subst hab
      simp only [List.getD_cons_succ, List.getD_cons_zero] at hg
      exact h2 b (by rw [hg])
    rw [cliRun, if_neg hc1, if_neg hc2]
  · intro r h
    rw [cliRun, if_pos ⟨rfl, rfl⟩] at h
    cases hlg : listGroups ipsOf servers with
    | none => rw [hlg] at h; cases h
    | some gs =>
        rw [hlg] at h
        simp only [Option.map_some'] at h
        injection h with h'
        rw [← h']
  · intro q r h
    rw [cliRun, if_neg (by simp), if_pos ⟨rfl, rfl⟩] at h
    cases hdh : describeHost tag ipsOf servers ((prog :: ["--host", q]).getD 2 "") with
    | none => rw [hdh] at h; cases h
    | some d =>
        rw [hdh] at h
        simp only [Option.map_some'] at h
        injection h with h'
        rw [← h']

/-- C8 witness: '--list' with an extra argument is malformed and yields the
usage line with status 1. -/
theorem C8_cli_dispatch_witness :
    cliRun "os" novaIps [] ["p", "--list", "extra"] = some (Output.usageLine usageText, 1) :=
  (C8_cli_dispatch "os" "p" novaIps [] ["--list", "extra"]).1
    (by decide)
    (by
      intro q h
      injection h with h1 _
      exact absurd h1 (by decide))

/-- C9: both modes read only the first enumerated network's address list —
two servers that agree on name, accessIPv4, metadata, attributes and first
network are processed identically by both loop bodies, whatever their
remaining networks — and a fetched server whose addresses mapping is empty
makes the whole run fail (no document) rather than being skipped. -/
theorem C9_first_network_only_and_empty_failure (tag : String) (ipsOf : IpsFun)
    (servers : List Server) :
    ((∃ s ∈ servers, s.addresses = []) →
        listGroups ipsOf servers = none ∧ ∀ q, describeHost tag ipsOf servers q = none)
  ∧ (∀ s t : Server, s.name = t.name → s.accessIPv4 = t.accessIPv4 →
        s.metadata = t.metadata → s.attrs = t.attrs → firstNetwork s = firstNetwork t →
        (∀ gs, listStep ipsOf gs s = listStep ipsOf gs t)
      ∧ (∀ q res, hostStep tag ipsOf q res s = hostStep tag ipsOf q res t)) := by
  constructor
  · rintro ⟨s, hs, hemp⟩
    refine ⟨?_, ?_⟩
    · exact foldlM_option_none _ s (listStep_eq_none ipsOf s hemp) servers [] hs
    · intro q
      exact foldlM_option_none _ s (hostStep_eq_none tag ipsOf q s hemp) servers [] hs
  · intro s t hn ha hm hat hfn
    have hg : serverGroup s = serverGroup t := by
      unfold serverGroup
      rw [hm]
    have hv : ∀ tg, hostVars tg s = hostVars tg t := by
      intro tg
      unfold hostVars
      rw [hat]
    constructor
    · intro gs
      simp only [listStep, hfn, hn, ha, hg]
    · intro q res
      simp only [hostStep, hfn, ha, hv]

/-- C9 witness: an empty addresses mapping fails both modes, and changing a
server's second network does not change its processing. -/
theorem C9_witness :
    listGroups novaIps [⟨"n", "x", [], [], []⟩] = none
  ∧ describeHost "os" novaIps [⟨"n", "x", [], [], []⟩] "q" = none
  ∧ listStep novaIps [] ⟨"a", "i", [], [("n1", [])], []⟩
      = listStep novaIps [] ⟨"a", "i", [], [("n1", []), ("n2", [⟨"z", none, some 4⟩])], []⟩ :=
  ⟨((C9_first_network_only_and_empty_failure "os" novaIps [⟨"n", "x", [], [], []⟩]).1
      ⟨⟨"n", "x", [], [], []⟩, by decide, rfl⟩).1,
   ((C9_first_network_only_and_empty_failure "os" novaIps [⟨"n", "x", [], [], []⟩]).1
      ⟨⟨"n", "x", [], [], []⟩, by decide, rfl⟩).2 "q",
   ((C9_first_network_only_and_empty_failure "os" novaIps []).2
      ⟨"a", "i", [], [("n1", [])], []⟩ ⟨"a", "i", [], [("n1", []), ("n2", [⟨"z", none, some 4⟩])], []⟩
      rfl rfl rfl rfl rfl).1 []⟩

/-- C6 counterexample: a concrete two-server run in which the first server
introduces the group 'undefined' and the second the group 'web' — so the
insertion (first-occurrence) order is [undefined, web] — yet the document
emitted by the Python 2 script lists 'web' (hash slot 1) before
'undefined' (hash slot 5): the serialized group-key order is not
insertion order. -/
theorem C6_counterexample :
    emittedListDoc novaIps
      [⟨"d1", "8.8.8.8", [], [("net", [])], []⟩,
       ⟨"w1", "9.9.9.9", [("group", "web")], [("net", [])], []⟩]
      = some [("web", ["w1: 9.9.9.9"]), ("undefined", ["d1: 8.8.8.8"])]
  ∧ firstOccur
      ([⟨"d1", "8.8.8.8", [], [("net", [])], []⟩,
        ⟨"w1", "9.9.9.9", [("group", "web")], [("net", [])], []⟩].map serverGroup)
      = ["undefined", "web"]
  ∧ (["web", "undefined"] : List String) ≠ ["undefined", "web"] := by
  exact ⟨by decide, by decide, by decide⟩

/-- C6 amended: two discovery-mode runs over an unchanged server list
produce the same document, hence byte-for-byte identical output (CPython 2
string hashes are fixed absent hash randomization, which is off by
default), and the emitted document is the interpreter's hash-slot
arrangement of the groups taken in insertion order — the first server
that introduces each group determines its position in the *insertion*
sequence, each group keeping its in-order value list — but the emitted
key order is that slot order, not insertion order, and there is no
sorting. -/
theorem C6_amended_determinism_and_slot_order (ipsOf : IpsFun) (servers : List Server)
    (gs : List (String × List String)) (h : listGroups ipsOf servers = some gs) :
    (∀ d1 d2, emittedListDoc ipsOf servers = some d1 →
        emittedListDoc ipsOf servers = some d2 → d1 = d2)
  ∧ emittedListDoc ipsOf servers
      = some ((py2DictKeyOrder (firstOccur (servers.map serverGroup))).filterMap
          (fun k => (alookup k gs).map (fun v => (k, v)))) := by
  constructor
  · intro d1 d2 h1 h2
    exact Option.some.inj (h1.symm.trans h2)
  · have hkeys : gs.map Prod.fst = firstOccur (servers.map serverGroup) := by
      have hk := keys_foldListSteps ipsOf servers [] gs h
      simpa [firstOccur] using hk
    rw [emittedListDoc, h, Option.map_some', hkeys]

/-- C6 amended witness: the slot-order arrangement at a concrete
two-group run. -/
theorem C6_amended_witness :
    emittedListDoc novaIps
      [⟨"d1", "8.8.8.8", [], [("net", [])], []⟩,
       ⟨"w1", "9.9.9.9", [("group", "web")], [("net", [])], []⟩,
       ⟨"w2", "7.7.7.7", [("group", "web")], [("net", [])], []⟩]
      = some [("web", ["w1: 9.9.9.9", "w2: 7.7.7.7"]), ("undefined", ["d1: 8.8.8.8"])] := by
  have h := C6_amended_determinism_and_slot_order novaIps
      [⟨"d1", "8.8.8.8", [], [("net", [])], []⟩,
       ⟨"w1", "9.9.9.9", [("group", "web")], [("net", [])], []⟩,
       ⟨"w2", "7.7.7.7", [("group", "web")], [("net", [])], []⟩]
      [("undefined", ["d1: 8.8.8.8"]), ("web", ["w1: 9.9.9.9", "w2: 7.7.7.7"])]
      (by decide)
  rw [h.2]
  decide
